import Mathlib

/-!
Verification development for the datacompare reconciliation engine.
Shallow embedding of `src/datacompare/id_handler.py`,
`src/datacompare/column_mapper.py` and
`src/datacompare/comparison_engine.py`, together with theorems settling
the specification claims about them.
-/

namespace DataCompare

/-- Embedding of a Python scalar value as stored in an `id_handler` data
sample: `None`, a string, an integer, a boolean, or a float (modelled as a
rational, which covers every float literal appearing in the claims). -/
inductive PyVal where
  | none : PyVal
  | str : String → PyVal
  | int : Int → PyVal
  | bool : Bool → PyVal
  | float : ℚ → PyVal
deriving DecidableEq, Repr

/-- Python truthiness of a value: `None`, the empty string, `0`, `0.0` and
`False` are falsy, everything else is truthy. -/
def pyTruthy : PyVal → Bool
  | PyVal.none => false
  | PyVal.str s => !(s == "")
  | PyVal.int n => !(n == 0)
  | PyVal.bool b => b
  | PyVal.float q => !(q == 0)

/-- Python `str()` rendering of a value, the normalized text used by the
uniqueness heuristic. -/
def pyValStr : PyVal → String
  | PyVal.none => "None"
  | PyVal.str s => s
  | PyVal.int n => toString n
  | PyVal.bool b => if b then "True" else "False"
  | PyVal.float q => toString q

/-- A sampled record: a Python dict from column name to value. -/
abbrev SampleRow := List (String × PyVal)

/-- Python `row.get(c)`: the value bound to `c`, or `None`-as-absent when
the key is missing. -/
def sampleGet (r : SampleRow) (c : String) : Option PyVal :=
  (r.find? (fun p => p.1 == c)).map (fun p => p.2)

/-- Truthiness of the result of `row.get(c)`: a missing key behaves like
`None`. -/
def optTruthy : Option PyVal → Bool
  | Option.none => false
  | Option.some v => pyTruthy v

/-- Python `str(row.get(c))`: a missing key renders as `"None"`. -/
def pyStrOpt : Option PyVal → String
  | Option.none => "None"
  | Option.some v => pyValStr v

/-- Embedding of Python `str.lower()` (ASCII case mapping, as in Lean's
`Char.toLower`), written by structural recursion over the underlying
character list so that concrete instances evaluate. -/
def pyLower (s : String) : String :=
  ⟨s.data.map Char.toLower⟩

/-- Embedding of Python `str.strip()`: drop leading and trailing
whitespace, written by structural recursion over the underlying character
list. -/
def pyStrip (s : String) : String :=
  ⟨((s.data.dropWhile Char.isWhitespace).reverse.dropWhile
      Char.isWhitespace).reverse⟩

/-- Embedding of `IDHandler.__init__`: the column list and the data
sample. -/
structure IDHandler where
  columns : List String
  data_sample : List SampleRow

/-- Semantics of `IDHandler._matches_id_pattern`: `re.match` of the five
anchored patterns `^id$`, `^.*_id$`, `^.*id$`, `^key$`, `^.*_key$` against
the (already lowercased) column name. -/
def matchesIdPattern (column_name : String) : Bool :=
  column_name == "id" || column_name.endsWith "_id" || column_name.endsWith "id"
    || column_name == "key" || column_name.endsWith "_key"

/-- The uniqueness ratio of one column over the sample: distinct
normalized-text values divided by sample size (0 for an empty sample, where
`_calculate_uniqueness_scores` returns no scores at all). -/
def uniquenessRatio (h : IDHandler) (c : String) : ℚ :=
  (((h.data_sample.map (fun r => pyStrOpt (sampleGet r c))).eraseDups.length : ℚ))
    / ((h.data_sample.length : ℚ))

/-- Embedding of `IDHandler._calculate_uniqueness_scores`: an empty sample
yields no scores; otherwise one score per column in column order. -/
def uniquenessScores (h : IDHandler) : List (String × ℚ) :=
  if h.data_sample.isEmpty then []
  else h.columns.map (fun c => (c, uniquenessRatio h c))

/-- Embedding of `IDHandler.detect_id_columns`: the candidate set built by
adding name-pattern matches and then columns whose uniqueness score exceeds
0.95.  The Python function returns `list(candidates)` of a set with no
ordering guarantee, embedded here as the `Finset` of candidates. -/
def detect_id_columns (h : IDHandler) : Finset String :=
  (h.columns.filter (fun c => matchesIdPattern (pyLower c))).toFinset ∪
    (((uniquenessScores h).filter (fun p => (95 : ℚ) / 100 < p.2)).map
      (fun p => p.1)).toFinset

/-- Embedding of `IDHandler._has_null_values`: some sampled record has a
falsy value (under Python truthiness) for the column. -/
def hasNullValues (h : IDHandler) (column : String) : Bool :=
  h.data_sample.any (fun row => !(optTruthy (sampleGet row column)))

/-- Structured rendering of the `ValueError`s raised by the validation
routines; each constructor names the offending column of the corresponding
Python message. -/
inductive ValidationError where
  | sourceColumnNotFound : String → ValidationError
  | targetColumnNotFound : String → ValidationError
  | idColumnNotFound : String → ValidationError
  | idColumnHasNulls : String → ValidationError
deriving DecidableEq, Repr

/-- The existence-check loop shared by the validators: first listed column
missing from `cols`, if any (a `raise` aborts at that point). -/
def firstMissingFrom (cols : List String) : List String → Option String
  | [] => Option.none
  | c :: rest => if cols.contains c then firstMissingFrom cols rest else Option.some c

/-- The null-check loop of `IDHandler.validate_id_columns`: first id column
with a falsy sampled value, if any. -/
def firstWithNulls (h : IDHandler) : List String → Option String
  | [] => Option.none
  | c :: rest => if hasNullValues h c then Option.some c else firstWithNulls h rest

/-- Embedding of `IDHandler.validate_id_columns`: check all id columns for
existence (raising on the first missing one), then for null values
(raising on the first column with a falsy sample value). -/
def validate_id_columns (h : IDHandler) (id_columns : List String) :
    Except ValidationError Unit :=
  match firstMissingFrom h.columns id_columns with
  | Option.some c => Except.error (ValidationError.idColumnNotFound c)
  | Option.none =>
    match firstWithNulls h id_columns with
    | Option.some c => Except.error (ValidationError.idColumnHasNulls c)
    | Option.none => Except.ok ()

/-- Embedding of `ColumnMapper.__init__`: the two column lists. -/
structure ColumnMapper where
  source1_columns : List String
  source2_columns : List String

/-- Embedding of `ColumnMapper.validate_mapping`: check all mapping keys
against the source-1 columns (raising on the first missing one), then all
mapping values against the source-2 columns (raising on the first missing
one). -/
def validate_mapping (m : ColumnMapper) (mapping : List (String × String)) :
    Except ValidationError Unit :=
  match firstMissingFrom m.source1_columns (mapping.map (fun p => p.1)) with
  | Option.some c => Except.error (ValidationError.sourceColumnNotFound c)
  | Option.none =>
    match firstMissingFrom m.source2_columns (mapping.map (fun p => p.2)) with
    | Option.some c => Except.error (ValidationError.targetColumnNotFound c)
    | Option.none => Except.ok ()

/-- Python-dict insertion: replace in place when the key is present,
append otherwise. -/
def dictInsert {α β : Type} [BEq α] (m : List (α × β)) (k : α) (v : β) :
    List (α × β) :=
  if m.any (fun p => p.1 == k) then
    m.map (fun p => if p.1 == k then (k, v) else p)
  else m ++ [(k, v)]

/-- The `s2_cols.index(col1)` step of the exact-matching phase: the first
source-2 column whose lowercased name equals the lowercased source-1
column name. -/
def firstLowerMatch (c : String) (cands : List String) : Option String :=
  cands.find? (fun c2 => pyLower c2 == pyLower c)

/-- The exact-matching phase of `ColumnMapper.auto_map_columns`: each
source-1 column whose lowercased name occurs among the lowercased source-2
columns is mapped to the first such source-2 column. -/
def exactMappings (s1 s2 : List String) : List (String × String) :=
  s1.foldl (fun maps c =>
    match firstLowerMatch c s2 with
    | Option.some c2 => dictInsert maps c c2
    | Option.none => maps) []

/-- The inner loop of the similarity phase: over the source-2 columns in
order, skip the used ones, score the rest against `col1` (both sides
lowercased), and keep the candidate whenever its score beats the running
best and exceeds 0.6. -/
def bestCandidate (ratio : String → String → ℚ) (col1 : String)
    (cands used : List String) : Option String :=
  (cands.foldl (fun acc c2 =>
    if used.contains c2 then acc
    else if ratio (pyLower col1) (pyLower c2) > acc.1 ∧
        ratio (pyLower col1) (pyLower c2) > 6 / 10 then
      (ratio (pyLower col1) (pyLower c2), Option.some c2)
    else acc) ((0 : ℚ), (Option.none : Option String))).2

/-- The outer loop of the similarity phase: map each still-unmapped
source-1 column to its best candidate (when one is accepted) and add that
candidate to the used pool. -/
def similarityMappings (ratio : String → String → ℚ) (cands : List String) :
    List String → List String → List (String × String)
  | _, [] => []
  | used, c1 :: rest =>
    match bestCandidate ratio c1 cands used with
    | Option.some c2 =>
      (c1, c2) :: similarityMappings ratio cands (used ++ [c2]) rest
    | Option.none => similarityMappings ratio cands used rest

/-- Embedding of `ColumnMapper.auto_map_columns`, parameterized by the
string-similarity function (`difflib.SequenceMatcher(None, a, b).ratio()`
in the source, an external-library routine whose scores lie in [0, 1]):
the exact phase followed by the similarity phase over the remaining
columns, with the source-2 columns already claimed by the exact phase
marked used. -/
def auto_map_columns (ratio : String → String → ℚ) (m : ColumnMapper) :
    List (String × String) :=
  let exact := exactMappings m.source1_columns m.source2_columns
  let unmapped := m.source1_columns.filter
    (fun c => !((exact.map (fun p => p.1)).contains c))
  let used := m.source2_columns.filter
    (fun c => (exact.map (fun p => p.2)).contains c)
  exact ++ similarityMappings ratio m.source2_columns used unmapped

/-- Invariant of the best-candidate fold of the similarity phase, over the
processed prefix of the candidate list: with no pick yet the running best
is 0 and every eligible processed candidate scored at most 0.6; with a
pick, the pick is an eligible processed candidate whose score is the
running best, exceeds 0.6, is maximal among the eligible processed
candidates, and strictly exceeds every eligible candidate before it. -/
def bestCandidateInv (ratio : String → String → ℚ) (col1 : String)
    (used processed : List String) (acc : ℚ × Option String) : Prop :=
  (acc.2 = Option.none →
    acc.1 = 0 ∧ ∀ x ∈ processed, x ∉ used →
      ratio (pyLower col1) (pyLower x) ≤ 6 / 10) ∧
  (∀ c, acc.2 = Option.some c →
    c ∈ processed ∧ c ∉ used ∧
    acc.1 = ratio (pyLower col1) (pyLower c) ∧ 6 / 10 < acc.1 ∧
    (∀ x ∈ processed, x ∉ used →
      ratio (pyLower col1) (pyLower x) ≤ acc.1) ∧
    ∃ pre post, processed = pre ++ c :: post ∧
      ∀ x ∈ pre, x ∉ used → ratio (pyLower col1) (pyLower x) < acc.1)

/-- Embedding of a cell of a comparison batch: absent/null (pandas `NaN`
or `None`, both satisfying `pd.isna`) or a scalar rendered as text, per the
data model of the spec.  `_create_index` stores `str(val)` for non-null
cells, which on this representation is the identity. -/
inductive Val where
  | na : Val
  | txt : String → Val
deriving DecidableEq, Repr

/-- A row of a batch: a dict from column name to cell value. -/
abbrev Row := List (String × Val)

/-- Python `row.get(c)`: `None` when the column is absent. -/
def rowGet (r : Row) (c : String) : Option Val :=
  (r.find? (fun p => p.1 == c)).map (fun p => p.2)

/-- Python `row[c]`: a `KeyError` carrying the column name when the column
is absent. -/
def rowGetE (r : Row) (c : String) : Except String Val :=
  match r.find? (fun p => p.1 == c) with
  | Option.some p => Except.ok p.2
  | Option.none => Except.error c

/-- Python dict lookup on a column mapping via `.get`. -/
def mapLookup (m : List (String × String)) (c : String) : Option String :=
  (m.find? (fun p => p.1 == c)).map (fun p => p.2)

/-- Python `str()` on a cell as used for composite keys: `str` of a pandas
missing value renders as text (`"nan"`), a textual scalar renders as
itself. -/
def keyStr : Val → String
  | Val.na => "nan"
  | Val.txt s => s

/-- The `pd.isna` test on the result of `row.get`: an absent column
(`None`) and a stored missing value are both na. -/
def isna : Option Val → Bool
  | Option.none => true
  | Option.some Val.na => true
  | Option.some (Val.txt _) => false

/-- The text of a non-null fetched value (`str(value)` in the source,
where the index already stores text). -/
def optTxt : Option Val → String
  | Option.some (Val.txt s) => s
  | Option.some Val.na => "nan"
  | Option.none => "None"

/-- Embedding of `ComparisonConfig`. -/
structure ComparisonConfig where
  case_sensitive : Bool := true
  trim_strings : Bool := false
  columns_to_compare : Option (List String) := Option.none
deriving DecidableEq, Repr

/-- The columns compared by `_compare_rows`: the configured list when it
is truthy (present and non-empty), the mapping keys otherwise. -/
def colsToCompare (cfg : ComparisonConfig)
    (mapping : List (String × String)) : List String :=
  match cfg.columns_to_compare with
  | Option.some (c :: cs) => c :: cs
  | _ => mapping.map (fun p => p.1)

/-- The normalization applied to both sides before textual comparison:
trim when `trim_strings` is set, then lowercase when `case_sensitive` is
unset. -/
def normalizeVal (cfg : ComparisonConfig) (s : String) : String :=
  let s1 := if cfg.trim_strings then pyStrip s else s
  if cfg.case_sensitive then s1 else pyLower s1

/-- The per-column difference test of `_compare_rows`: both na values are
equal; two present values are compared as normalized text; a na value
against a present one always differs. -/
def valuesDiffer (cfg : ComparisonConfig) (v1 v2 : Option Val) : Bool :=
  if isna v1 && isna v2 then false
  else if !(isna v1) && !(isna v2) then
    !(normalizeVal cfg (optTxt v1) == normalizeVal cfg (optTxt v2))
  else true

/-- The per-column match test of `_calculate_column_stats`: both na counts
as a match, two present values match when their normalized texts are
equal, a na value against a present one does not match. -/
def valueMatches (cfg : ComparisonConfig) (v1 v2 : Option Val) : Bool :=
  if isna v1 && isna v2 then true
  else if !(isna v1) && !(isna v2) then
    normalizeVal cfg (optTxt v1) == normalizeVal cfg (optTxt v2)
  else false

/-- The column loop of `_compare_rows`: fetch the mapped source-2 column
(a `KeyError` when a compared column is absent from the mapping) and
accumulate whether any compared column differs. -/
def compareRowsLoop (cfg : ComparisonConfig) (mapping : List (String × String))
    (r1 r2 : Row) : List String → Except String Bool
  | [] => Except.ok false
  | c :: cs =>
    match mapLookup mapping c with
    | Option.none => Except.error c
    | Option.some c2 =>
      match compareRowsLoop cfg mapping r1 r2 cs with
      | Except.ok rest =>
        Except.ok (valuesDiffer cfg (rowGet r1 c) (rowGet r2 c2) || rest)
      | Except.error e => Except.error e

/-- Embedding of `ComparisonEngine._compare_rows`: when any compared
column differs the returned payload is the pair of full rows
(`source1_value` and `source2_value`), otherwise `None`. -/
def compareRows (cfg : ComparisonConfig) (mapping : List (String × String))
    (r1 r2 : Row) : Except String (Option (Row × Row)) :=
  (compareRowsLoop cfg mapping r1 r2 (colsToCompare cfg mapping)).map
    (fun hasDiff => if hasDiff then Option.some (r1, r2) else Option.none)

/-- The composite key of a source-1 row: `str(row[col])` per id column,
with a `KeyError` when an id column is absent. -/
def rowKey1 (id_columns : List String) (r : Row) : Except String (List String) :=
  id_columns.mapM (fun c => (rowGetE r c).map keyStr)

/-- The composite key of a source-2 row: each id column is first mapped
through the column mapping, falling back to the same name. -/
def rowKey2 (id_columns : List String) (mapping : List (String × String))
    (r : Row) : Except String (List String) :=
  id_columns.mapM (fun c => (rowGetE r ((mapLookup mapping c).getD c)).map keyStr)

/-- Embedding of `ComparisonEngine._create_index`: fold the rows into a
dict from composite key to row, the later row replacing an earlier one on
a key collision. -/
def mkIndex (rows : List Row) (keyOf : Row → Except String (List String)) :
    Except String (List (List String × Row)) :=
  rows.foldlM (fun idx r => (keyOf r).map (fun k => dictInsert idx k r)) []

/-- The key set of an index, in insertion order. -/
def idxKeys (idx : List (List String × Row)) : List (List String) :=
  idx.map (fun p => p.1)

/-- Index lookup by composite key. -/
def idxGet (idx : List (List String × Row)) (k : List String) : Option Row :=
  (idx.find? (fun p => p.1 == k)).map (fun p => p.2)

/-- The key-set difference `set(i1) - set(i2)` of `compare`, in insertion
order of the first index. -/
def uniqueKeys (i1 i2 : List (List String × Row)) : List (List String) :=
  (idxKeys i1).filter (fun k => !((idxKeys i2).contains k))

/-- The key-set intersection `set(i1) & set(i2)` of `compare`, in
insertion order of the first index. -/
def commonKeys (i1 i2 : List (List String × Row)) : List (List String) :=
  (idxKeys i1).filter (fun k => (idxKeys i2).contains k)

/-- One entry of the `differences` partition: the dict of key values plus
the full row from each side. -/
structure DiffEntry where
  id : List (String × String)
  source1_value : Row
  source2_value : Row
deriving DecidableEq, Repr

/-- Embedding of `ComparisonResult` (the unique-row partitions, the
differing entries and the per-column statistics). -/
structure ComparisonResult where
  unique_to_source1 : List Row
  unique_to_source2 : List Row
  differences : List DiffEntry
  column_stats : List (String × ℚ)
deriving DecidableEq, Repr

/-- Embedding of `ComparisonEngine.__init__`. -/
structure ComparisonEngine where
  source1_data : List Row
  source2_data : List Row
  id_columns : List String
  column_mapping : List (String × String)
  config : ComparisonConfig := {}

/-- Increment the counter of one column in the matches dict. -/
def bumpMatches (m : List (String × Nat)) (c : String) : List (String × Nat) :=
  m.map (fun p => if p.1 == c then (p.1, p.2 + 1) else p)

/-- The counting loops of `_calculate_column_stats`: start every mapped
column at zero and, for each common key and each mapping pair, bump the
source-1 column counter when its values match. -/
def statsCount (cfg : ComparisonConfig) (mapping : List (String × String))
    (i1 i2 : List (List String × Row)) (common : List (List String)) :
    List (String × Nat) :=
  common.foldl (fun m k =>
    let r1 := (idxGet i1 k).getD []
    let r2 := (idxGet i2 k).getD []
    mapping.foldl (fun acc p =>
      if valueMatches cfg (rowGet r1 p.1) (rowGet r2 p.2) then bumpMatches acc p.1
      else acc) m)
    (((mapping.map (fun p => p.1)).eraseDups).map (fun c => (c, 0)))

/-- Embedding of `ComparisonEngine._calculate_column_stats`: empty when
there are no common keys, otherwise each mapped column's match count
divided by the number of common keys. -/
def calcColumnStats (cfg : ComparisonConfig) (mapping : List (String × String))
    (i1 i2 : List (List String × Row)) (common : List (List String)) :
    List (String × ℚ) :=
  if common.isEmpty then []
  else (statsCount cfg mapping i1 i2 common).map
    (fun p => (p.1, (p.2 : ℚ) / (common.length : ℚ)))

/-- The loop of `compare` over the common keys, collecting one
`DiffEntry` per key whose rows differ. -/
def collectDiffs (e : ComparisonEngine) (i1 i2 : List (List String × Row)) :
    List (List String) → Except String (List DiffEntry)
  | [] => Except.ok []
  | k :: ks =>
    match compareRows e.config e.column_mapping ((idxGet i1 k).getD [])
        ((idxGet i2 k).getD []) with
    | Except.error err => Except.error err
    | Except.ok Option.none => collectDiffs e i1 i2 ks
    | Except.ok (Option.some (r1, r2)) =>
      (collectDiffs e i1 i2 ks).map
        (fun rest => { id := e.id_columns.zip k, source1_value := r1,
                       source2_value := r2 } :: rest)

/-- Embedding of `ComparisonEngine.compare`: build both indexes, partition
the key sets, collect the differing common rows and compute the column
statistics. -/
def ComparisonEngine.compare (e : ComparisonEngine) :
    Except String ComparisonResult := do
  let i1 ← mkIndex e.source1_data (rowKey1 e.id_columns)
  let i2 ← mkIndex e.source2_data (rowKey2 e.id_columns e.column_mapping)
  let common := commonKeys i1 i2
  let diffs ← collectDiffs e i1 i2 common
  Except.ok
    { unique_to_source1 := (uniqueKeys i1 i2).map (fun k => (idxGet i1 k).getD [])
      unique_to_source2 := (uniqueKeys i2 i1).map (fun k => (idxGet i2 k).getD [])
      differences := diffs
      column_stats := calcColumnStats e.config e.column_mapping i1 i2 common }

/-- Engine with disjoint composite keys, used as a concrete instance. -/
def engTiny : ComparisonEngine :=
  { source1_data := [[("id", Val.txt "1")]]
    source2_data := [[("id", Val.txt "2")]]
    id_columns := ["id"]
    column_mapping := [] }

/-- The two batches of `test_basic_comparison`. -/
def batchBasic1 : List Row :=
  [[("id", Val.txt "1"), ("name", Val.txt "Alice"), ("value", Val.txt "100")],
   [("id", Val.txt "2"), ("name", Val.txt "Bob"), ("value", Val.txt "200")],
   [("id", Val.txt "3"), ("name", Val.txt "Charlie"), ("value", Val.txt "300")]]

/-- Second batch of `test_basic_comparison` (the `value` of id 2 differs,
id 4 replaces id 3). -/
def batchBasic2 : List Row :=
  [[("id", Val.txt "1"), ("name", Val.txt "Alice"), ("value", Val.txt "100")],
   [("id", Val.txt "2"), ("name", Val.txt "Bob"), ("value", Val.txt "250")],
   [("id", Val.txt "4"), ("name", Val.txt "David"), ("value", Val.txt "400")]]

/-- The engine of `test_basic_comparison`. -/
def engBasic : ComparisonEngine :=
  { source1_data := batchBasic1
    source2_data := batchBasic2
    id_columns := ["id"]
    column_mapping := [("name", "name"), ("value", "value")] }

/-- The engine of `test_column_selection`-style scoping: compare only
`name`, while the mapping also contains `value` (whose values differ for
the common id 2). -/
def engScoped : ComparisonEngine :=
  { source1_data := batchBasic1
    source2_data := batchBasic2
    id_columns := ["id"]
    column_mapping := [("name", "name"), ("value", "value")]
    config := { columns_to_compare := Option.some ["name"] } }

/-- The engine of `test_mapped_id_columns`: the identifier key
`customer_id` is itself part of the correspondence. -/
def engMappedId : ComparisonEngine :=
  { source1_data :=
      [[("customer_id", Val.txt "1"), ("name", Val.txt "Alice")]]
    source2_data := [[("id", Val.txt "1"), ("name", Val.txt "Alice")]]
    id_columns := ["customer_id"]
    column_mapping := [("customer_id", "id"), ("name", "name")] }

/-- Generic association-list lookup keyed by strings (Python dict
access). -/
def assocLookup {β : Type} (m : List (String × β)) (c : String) : Option β :=
  (m.find? (fun p => p.1 == c)).map (fun p => p.2)

/-- The index `compare` builds for the first basic batch. -/
def idxBasic1 : List (List String × Row) :=
  (mkIndex batchBasic1 (rowKey1 ["id"])).toOption.getD []

/-- The index `compare` builds for the second basic batch. -/
def idxBasic2 : List (List String × Row) :=
  (mkIndex batchBasic2
    (rowKey2 ["id"] [("name", "name"), ("value", "value")])).toOption.getD []

/-- The comparison result of the basic engine. -/
def compBasic : ComparisonResult :=
  (engBasic.compare).toOption.getD ⟨[], [], [], []⟩

/-- Engine whose `columns_to_compare` names a column absent from the
correspondence while the two batches share no composite key. -/
def engGhost : ComparisonEngine :=
  { source1_data := [[("id", Val.txt "1")]]
    source2_data := [[("id", Val.txt "2")]]
    id_columns := ["id"]
    column_mapping := []
    config := { columns_to_compare := Option.some ["ghost"] } }

/-- The same misconfiguration as `engGhost`, but with one common key. -/
def engGhostCommon : ComparisonEngine :=
  { source1_data := [[("id", Val.txt "1")]]
    source2_data := [[("id", Val.txt "1")]]
    id_columns := ["id"]
    column_mapping := []
    config := { columns_to_compare := Option.some ["ghost"] } }

/-- Sample handler taken from `test_detect_id_columns`. -/
def handlerDetect : IDHandler :=
  { columns := ["id", "name", "customer_id", "price"]
    data_sample :=
      [[("id", PyVal.str "1"), ("name", PyVal.str "A"),
        ("customer_id", PyVal.str "C1"), ("price", PyVal.str "10")],
       [("id", PyVal.str "2"), ("name", PyVal.str "B"),
        ("customer_id", PyVal.str "C2"), ("price", PyVal.str "10")]] }

/-- Handler whose sample has a missing (`None`) id value together with an
unknown requested id column, from `test_validate_id_columns`. -/
def handlerNullId : IDHandler :=
  { columns := ["id", "name", "order_id"]
    data_sample :=
      [[("id", PyVal.str "1"), ("name", PyVal.str "Alice"),
        ("order_id", PyVal.str "A1")],
       [("id", PyVal.none), ("name", PyVal.str "Dave"),
        ("order_id", PyVal.str "A4")]] }

/-- Handler whose sample has a key value that is present but equal to the
integer `0`. -/
def handlerZeroId : IDHandler :=
  { columns := ["id", "name"]
    data_sample :=
      [[("id", PyVal.int 0), ("name", PyVal.str "Zed")]] }

/-- C9: identifier detection returns exactly the union of the two
signals — columns whose lowercased name is exactly `id`, ends with `_id`,
ends with `id`, is exactly `key`, or ends with `_key`, and columns whose
uniqueness ratio (distinct normalized-text sample values over sample size)
is strictly greater than 0.95. -/
theorem detect_id_columns_is_union_of_signals (h : IDHandler) (c : String) :
    c ∈ detect_id_columns h ↔
      (c ∈ h.columns ∧
        (pyLower c = "id" ∨ (pyLower c).endsWith "_id" = true ∨
          (pyLower c).endsWith "id" = true ∨ pyLower c = "key" ∨
          (pyLower c).endsWith "_key" = true)) ∨
      (c ∈ h.columns ∧
        (95 : ℚ) / 100 <
          (((h.data_sample.map (fun r => pyStrOpt (sampleGet r c))).eraseDups.length : ℚ))
            / ((h.data_sample.length : ℚ))) := by
  simp only [detect_id_columns, Finset.mem_union, List.mem_toFinset,
    List.mem_filter, List.mem_map, uniquenessScores, uniquenessRatio,
    matchesIdPattern, Bool.or_eq_true, beq_iff_eq, decide_eq_true_eq, or_assoc]
  by_cases hs : h.data_sample.isEmpty
  · have hnil : h.data_sample = [] := List.isEmpty_iff.mp hs
    have h95 : ¬((95 : ℚ) / 100 < 0) := by norm_num
    simp [hs, hnil, h95]
  · simp only [hs, if_false]
    constructor
    · rintro (hname | ⟨p, ⟨hp, hlt⟩, hpc⟩)
      · exact Or.inl hname
      · rcases List.mem_map.mp hp with ⟨c', hc', hpeq⟩
        refine Or.inr ?_
        subst hpeq
        subst hpc
        exact ⟨hc', hlt⟩
    · rintro (hname | ⟨hc, hlt⟩)
      · exact Or.inl hname
      · exact Or.inr ⟨(c, _), ⟨List.mem_map.mpr ⟨c, hc, rfl⟩, hlt⟩, rfl⟩

/-- Witness for C9 at the sample of `test_detect_id_columns`: `name` is
detected (by uniqueness only) and the theorem's characterization applies
to it. -/
theorem detect_id_columns_is_union_of_signals_witness :
    "name" ∈ detect_id_columns handlerDetect :=
  (detect_id_columns_is_union_of_signals handlerDetect "name").mpr
    (Or.inr ⟨by decide, by
      have h2 : ((handlerDetect.data_sample.map
          (fun r => pyStrOpt (sampleGet r "name"))).eraseDups.length) = 2 := by
        decide
      have hl : handlerDetect.data_sample.length = 2 := by decide
      rw [h2, hl]
      norm_num⟩)

/-- C10: for a key column present in the column list, validation rejects
it as containing null values exactly when some sampled value for it is
falsy under Python truthiness, and the present-but-falsy values `0`,
`0.0`, `False` and `""` all count as null. -/
theorem validate_id_columns_truthiness (h : IDHandler) (c : String)
    (hc : c ∈ h.columns) :
    (validate_id_columns h [c] =
        Except.error (ValidationError.idColumnHasNulls c) ↔
      ∃ row ∈ h.data_sample, optTruthy (sampleGet row c) = false) ∧
    pyTruthy (PyVal.int 0) = false ∧ pyTruthy (PyVal.float 0) = false ∧
    pyTruthy (PyVal.bool false) = false ∧ pyTruthy (PyVal.str "") = false := by
  refine ⟨?_, by decide, by decide, by decide, by decide⟩
  have hmem : h.columns.contains c = true := List.elem_eq_true_of_mem hc
  by_cases hb : hasNullValues h c = true
  · have hrun : validate_id_columns h [c] =
        Except.error (ValidationError.idColumnHasNulls c) := by
      simp [validate_id_columns, firstMissingFrom, hmem, firstWithNulls, hb, hc]
    rcases List.any_eq_true.mp hb with ⟨row, hrow, hv⟩
    exact iff_of_true hrun ⟨row, hrow, by simpa using hv⟩
  · have hbf : hasNullValues h c = false := Bool.eq_false_iff.mpr hb
    have hrun : validate_id_columns h [c] = Except.ok () := by
      simp [validate_id_columns, firstMissingFrom, hmem, firstWithNulls, hbf, hc]
    refine iff_of_false (by rw [hrun]; intro hcon; cases hcon) ?_
    rintro ⟨row, hrow, hv⟩
    have hall := List.any_eq_false.mp hbf row hrow
    exact hall (by simp [hv])

/-- Witness for C10: the handler whose only record carries the integer
`0` as its id value fails the null check. -/
theorem validate_id_columns_truthiness_witness :
    validate_id_columns handlerZeroId ["id"] =
      Except.error (ValidationError.idColumnHasNulls "id") :=
  (validate_id_columns_truthiness handlerZeroId "id" (by decide)).1.mpr
    ⟨[("id", PyVal.int 0), ("name", PyVal.str "Zed")], by decide, by decide⟩

/-- C3 (code bug evidence): on the input of `test_validate_id_columns`,
where the requested id columns carry two violations (`invalid_col` is
missing and `id` has a null sample value), `validate_id_columns` raises a
single error for the first violation instead of collecting both; likewise
`validate_mapping` with two unknown mapping keys reports only the first. -/
theorem validation_stops_at_first_violation :
    validate_id_columns handlerNullId ["id", "invalid_col"] =
        Except.error (ValidationError.idColumnNotFound "invalid_col") ∧
    hasNullValues handlerNullId "id" = true ∧
    validate_mapping ⟨[], []⟩ [("a", "x"), ("b", "y")] =
        Except.error (ValidationError.sourceColumnNotFound "a") :=
  ⟨rfl, by decide, rfl⟩

/-- Membership characterization of the `onlyInA` (resp. `onlyInB`) key
set. -/
theorem mem_uniqueKeys (i1 i2 : List (List String × Row)) (k : List String) :
    k ∈ uniqueKeys i1 i2 ↔ k ∈ idxKeys i1 ∧ k ∉ idxKeys i2 := by
  simp [uniqueKeys, List.mem_filter]

/-- Membership characterization of the common key set. -/
theorem mem_commonKeys (i1 i2 : List (List String × Row)) (k : List String) :
    k ∈ commonKeys i1 i2 ↔ k ∈ idxKeys i1 ∧ k ∈ idxKeys i2 := by
  simp [commonKeys, List.mem_filter]

/-- C2: the key sets `unique_to_source1`, `unique_to_source2` and
`common_ids` computed by `compare` from the two indexes are pairwise
disjoint and their union is the union of the composite-key sets of both
indexes. -/
theorem compare_partition_complete (e : ComparisonEngine)
    (i1 i2 : List (List String × Row))
    (h1 : mkIndex e.source1_data (rowKey1 e.id_columns) = Except.ok i1)
    (h2 : mkIndex e.source2_data (rowKey2 e.id_columns e.column_mapping) =
      Except.ok i2) :
    Disjoint (uniqueKeys i1 i2).toFinset (uniqueKeys i2 i1).toFinset ∧
    Disjoint (uniqueKeys i1 i2).toFinset (commonKeys i1 i2).toFinset ∧
    Disjoint (uniqueKeys i2 i1).toFinset (commonKeys i1 i2).toFinset ∧
    (uniqueKeys i1 i2).toFinset ∪ (uniqueKeys i2 i1).toFinset ∪
        (commonKeys i1 i2).toFinset =
      (idxKeys i1).toFinset ∪ (idxKeys i2).toFinset := by
  refine ⟨?_, ?_, ?_, ?_⟩
  · rw [Finset.disjoint_left]
    intro k hk hk2
    rw [List.mem_toFinset, mem_uniqueKeys] at hk hk2
    exact hk.2 hk2.1
  · rw [Finset.disjoint_left]
    intro k hk hk2
    rw [List.mem_toFinset, mem_uniqueKeys] at hk
    rw [List.mem_toFinset, mem_commonKeys] at hk2
    exact hk.2 hk2.2
  · rw [Finset.disjoint_left]
    intro k hk hk2
    rw [List.mem_toFinset, mem_uniqueKeys] at hk
    rw [List.mem_toFinset, mem_commonKeys] at hk2
    exact hk.2 hk2.1
  · ext k
    simp only [Finset.mem_union, List.mem_toFinset, mem_uniqueKeys,
      mem_commonKeys]
    tauto

/-- Witness for C2: the partition facts hold for the indexes `compare`
builds on a concrete engine. -/
theorem compare_partition_complete_witness :
    Disjoint (uniqueKeys [(["1"], [("id", Val.txt "1")])]
        [(["2"], [("id", Val.txt "2")])]).toFinset
      (uniqueKeys [(["2"], [("id", Val.txt "2")])]
        [(["1"], [("id", Val.txt "1")])]).toFinset :=
  (compare_partition_complete engTiny
    [(["1"], [("id", Val.txt "1")])] [(["2"], [("id", Val.txt "2")])]
    rfl rfl).1

/-- C1: the per-column equality rule of `compare`.  A column does not
differ exactly when both fetched values are absent/null, or both are
present and their texts — trimmed when `trim_strings` is on, then
lowercased when `case_sensitive` is off — are equal; the statistics match
rule is the negation of the difference rule; and a matched row pair is
reported as differing exactly when some compared column's values differ
under this rule. -/
theorem compare_applies_equality_rule (cfg : ComparisonConfig)
    (mapping : List (String × String)) (r1 r2 : Row) (v1 v2 : Option Val)
    (cols : List String) (b : Bool) :
    (valuesDiffer cfg v1 v2 = false ↔
      (isna v1 = true ∧ isna v2 = true) ∨
      (∃ s1 s2, v1 = Option.some (Val.txt s1) ∧ v2 = Option.some (Val.txt s2) ∧
        (if cfg.case_sensitive then (if cfg.trim_strings then pyStrip s1 else s1)
          else pyLower (if cfg.trim_strings then pyStrip s1 else s1)) =
        (if cfg.case_sensitive then (if cfg.trim_strings then pyStrip s2 else s2)
          else pyLower (if cfg.trim_strings then pyStrip s2 else s2)))) ∧
    (valueMatches cfg v1 v2 = !(valuesDiffer cfg v1 v2)) ∧
    (compareRowsLoop cfg mapping r1 r2 cols = Except.ok b →
      (b = true ↔ ∃ c ∈ cols, ∃ c2, mapLookup mapping c = Option.some c2 ∧
        valuesDiffer cfg (rowGet r1 c) (rowGet r2 c2) = true)) := by
  refine ⟨?_, ?_, ?_⟩
  · rcases v1 with _ | v1 <;> rcases v2 with _ | v2
    · simp [valuesDiffer, isna]
    · cases v2 <;> simp [valuesDiffer, isna]
    · cases v1 <;> simp [valuesDiffer, isna]
    · cases v1 <;> cases v2 <;>
        simp [valuesDiffer, isna, optTxt, normalizeVal]
  · rcases v1 with _ | v1 <;> rcases v2 with _ | v2
    · simp [valuesDiffer, valueMatches, isna]
    · cases v2 <;> simp [valuesDiffer, valueMatches, isna]
    · cases v1 <;> simp [valuesDiffer, valueMatches, isna]
    · cases v1 <;> cases v2 <;> simp [valuesDiffer, valueMatches, isna]
  · induction cols generalizing b with
    | nil =>
      intro h
      cases h
      simp
    | cons c cs ih =>
      intro h
      simp only [compareRowsLoop] at h
      rcases hml : mapLookup mapping c with _ | c2
      · rw [hml] at h
        cases h
      · rw [hml] at h
        rcases hrec : compareRowsLoop cfg mapping r1 r2 cs with err | rest
        · rw [hrec] at h
          cases h
        · rw [hrec] at h
          cases h
          have hih := ih rest hrec
          constructor
          · intro hor
            rcases Bool.or_eq_true .. ▸ hor with hd | hr
            · exact ⟨c, List.mem_cons_self c cs, c2, hml, hd⟩
            · rcases hih.mp hr with ⟨c', hc', hrest⟩
              exact ⟨c', List.mem_cons_of_mem c hc', hrest⟩
          · rintro ⟨c', hc', c2', hml', hd⟩
            rcases List.mem_cons.mp hc' with rfl | hc'
            · rw [hml'] at hml
              cases hml
              simp [hd]
            · simp [hih.mpr ⟨c', hc', c2', hml', hd⟩]

/-- Witness for C1: for a case-insensitive config, `Alice` and `ALICE`
are equal under the rule; the row-level conjunct applies to the basic
engine's differing pair. -/
theorem compare_applies_equality_rule_witness :
    valuesDiffer { case_sensitive := false }
      (Option.some (Val.txt "Alice")) (Option.some (Val.txt "ALICE")) = false :=
  (compare_applies_equality_rule { case_sensitive := false } [] [] []
    (Option.some (Val.txt "Alice")) (Option.some (Val.txt "ALICE")) [] false).1.mpr
    (Or.inr ⟨"Alice", "ALICE", rfl, rfl, by decide⟩)

/-- The `eraseDups` worker maps a duplicate-free input to itself (past the
accumulated prefix). -/
theorem eraseDups_loop_of_nodup {α : Type} [BEq α] [LawfulBEq α] :
    ∀ (l r : List α), (∀ a ∈ l, a ∉ r) → l.Nodup →
      List.eraseDups.loop l r = r.reverse ++ l
  | [], r, _, _ => by simp [List.eraseDups.loop]
  | a :: l, r, hr, hnd => by
    have ha : r.elem a = false := by
      have : a ∉ r := hr a (List.mem_cons_self a l)
      simpa using this
    have hrec := eraseDups_loop_of_nodup l (a :: r)
      (fun b hb => by
        intro hmem
        rcases List.mem_cons.mp hmem with rfl | hbr
        · exact (List.nodup_cons.mp hnd).1 hb
        · exact hr b (List.mem_cons_of_mem a hb) hbr)
      (List.nodup_cons.mp hnd).2
    simp only [List.eraseDups.loop, ha]
    rw [hrec]
    simp

/-- `eraseDups` of a duplicate-free list is the list itself. -/
theorem eraseDups_of_nodup {α : Type} [BEq α] [LawfulBEq α] (l : List α)
    (h : l.Nodup) : l.eraseDups = l := by
  simpa [List.eraseDups] using eraseDups_loop_of_nodup l [] (by simp) h

/-- Lookup at the head of an association list. -/
theorem assocLookup_cons {β : Type} (a : String) (b : β)
    (l : List (String × β)) (c : String) :
    assocLookup ((a, b) :: l) c =
      if a == c then Option.some b else assocLookup l c := by
  simp only [assocLookup, List.find?]
  by_cases h : (a == c) = true
  · simp [h]
  · simp [h]

/-- Unfolding a bump at the head of the matches dict. -/
theorem bumpMatches_cons (k : String) (n : Nat) (m : List (String × Nat))
    (c : String) :
    bumpMatches ((k, n) :: m) c =
      (if k == c then (k, n + 1) else (k, n)) :: bumpMatches m c := rfl

/-- Lookup in a value-mapped association list. -/
theorem assocLookup_map_snd {β γ : Type} (f : β → γ)
    (m : List (String × β)) (c : String) :
    assocLookup (m.map (fun p => (p.1, f p.2))) c =
      (assocLookup m c).map f := by
  induction m with
  | nil => rfl
  | cons p m ih =>
    obtain ⟨k, b⟩ := p
    simp only [List.map_cons]
    rw [assocLookup_cons, assocLookup_cons]
    by_cases h : (k == c) = true
    · simp [h]
    · simp [h, ih]

/-- Lookup in the zero-initialized matches dict. -/
theorem assocLookup_initZero (keys : List String) (c : String)
    (hc : c ∈ keys) :
    assocLookup (keys.map (fun c => (c, (0 : Nat)))) c = Option.some 0 := by
  induction keys with
  | nil => cases hc
  | cons k keys ih =>
    simp only [List.map_cons]
    rw [assocLookup_cons]
    by_cases h : (k == c) = true
    · simp [h]
    · rcases List.mem_cons.mp hc with rfl | hc'
      · simp at h
      · simp [h, ih hc']

/-- Bumping one column's counter changes exactly that column's lookup. -/
theorem assocLookup_bumpMatches (m : List (String × Nat)) (c c' : String) :
    assocLookup (bumpMatches m c) c' =
      (assocLookup m c').map (fun n => if c' = c then n + 1 else n) := by
  induction m with
  | nil => rfl
  | cons p m ih =>
    obtain ⟨k, n⟩ := p
    rw [bumpMatches_cons]
    by_cases h2 : (k == c) = true
    · rw [if_pos h2, assocLookup_cons, assocLookup_cons]
      by_cases h1 : (k == c') = true
      · rw [if_pos h1, if_pos h1]
        have hcc : c' = c := (eq_of_beq h1).symm.trans (eq_of_beq h2)
        simp [hcc]
      · rw [if_neg h1, if_neg h1, ih]
    · rw [if_neg h2, assocLookup_cons, assocLookup_cons]
      by_cases h1 : (k == c') = true
      · rw [if_pos h1, if_pos h1]
        have hne : c' ≠ c := by
          intro hcc
          exact (by simpa using h2 : ¬ k = c) ((eq_of_beq h1).trans hcc)
        simp [hne]
      · rw [if_neg h1, if_neg h1, ih]

/-- Keys of the matches dict are preserved by a bump. -/
theorem bumpMatches_keys (m : List (String × Nat)) (c : String) :
    (bumpMatches m c).map (fun p => p.1) = m.map (fun p => p.1) := by
  induction m with
  | nil => rfl
  | cons p m ih =>
    simp only [bumpMatches, List.map_cons] at ih ⊢
    rw [ih]
    congr 1
    split <;> rfl

/-- Keys of the matches dict are preserved by the per-row counting loop
over the mapping. -/
theorem innerFold_keys (q : String × String → Bool)
    (mapping : List (String × String)) :
    ∀ (m : List (String × Nat)),
      ((mapping.foldl (fun acc p => if q p then bumpMatches acc p.1 else acc)
        m).map (fun p => p.1)) = m.map (fun p => p.1) := by
  induction mapping with
  | nil => intro m; rfl
  | cons p mapping ih =>
    intro m
    by_cases h : q p <;> simp only [List.foldl_cons, h, if_true, if_false] <;>
      rw [ih] <;> simp [bumpMatches_keys]

/-- The per-row counting loop leaves the counter of a column outside the
mapping keys unchanged. -/
theorem innerFold_lookup_of_notmem (q : String × String → Bool) :
    ∀ (mapping : List (String × String)) (m : List (String × Nat))
      (c : String), c ∉ mapping.map (fun p => p.1) →
      assocLookup (mapping.foldl
        (fun acc p => if q p then bumpMatches acc p.1 else acc) m) c =
        assocLookup m c
  | [], m, c, _ => rfl
  | p :: mapping, m, c, hc => by
    have hc1 : c ≠ p.1 := fun h => hc (by simp [h])
    have hc2 : c ∉ mapping.map (fun p => p.1) := fun h => hc (by simp [h])
    simp only [List.foldl_cons]
    by_cases h : q p = true
    · rw [if_pos h, innerFold_lookup_of_notmem q mapping _ c hc2,
        assocLookup_bumpMatches]
      cases hv : assocLookup m c <;> simp [hc1, hv]
    · rw [if_neg h, innerFold_lookup_of_notmem q mapping _ c hc2]

/-- The per-row counting loop bumps the counter of a mapped column exactly
when its pair satisfies the match test. -/
theorem innerFold_lookup_of_mem (q : String × String → Bool) :
    ∀ (mapping : List (String × String)) (m : List (String × Nat))
      (c c2 : String), (mapping.map (fun p => p.1)).Nodup →
      (c, c2) ∈ mapping →
      assocLookup (mapping.foldl
        (fun acc p => if q p then bumpMatches acc p.1 else acc) m) c =
        (assocLookup m c).map (fun n => if q (c, c2) then n + 1 else n)
  | [], _, _, _, _, h => by cases h
  | p :: mapping, m, c, c2, hnd, hmem => by
    rw [List.map_cons] at hnd
    rcases List.mem_cons.mp hmem with rfl | htail
    · have hc2 : c ∉ mapping.map (fun p => p.1) := (List.nodup_cons.mp hnd).1
      simp only [List.foldl_cons]
      by_cases h : q (c, c2) = true
      · rw [if_pos h, innerFold_lookup_of_notmem q mapping _ c hc2,
          assocLookup_bumpMatches]
        cases hv : assocLookup m c <;> simp [h, hv]
      · rw [if_neg h, innerFold_lookup_of_notmem q mapping _ c hc2]
        cases hv : assocLookup m c <;> simp [h, hv]
    · have hp1 : p.1 ≠ c := by
        intro h
        have hmem' : c ∈ mapping.map (fun p => p.1) :=
          List.mem_map.mpr ⟨(c, c2), htail, rfl⟩
        have hnd1 := (List.nodup_cons.mp hnd).1
        rw [h] at hnd1
        exact hnd1 hmem'
      have hnd' : (mapping.map (fun p => p.1)).Nodup :=
        (List.nodup_cons.mp hnd).2
      simp only [List.foldl_cons]
      by_cases h : q p = true
      · have hcp : ¬ c = p.1 := fun hh => hp1 hh.symm
        rw [if_pos h, innerFold_lookup_of_mem q mapping _ c c2 hnd' htail,
          assocLookup_bumpMatches]
        cases hv : assocLookup m c <;> simp [hv, hcp]
      · rw [if_neg h, innerFold_lookup_of_mem q mapping _ c c2 hnd' htail]

/-- The keys of the counting fold's result are the (deduplicated) mapping
keys, independent of the data. -/
theorem statsCount_keys (cfg : ComparisonConfig)
    (mapping : List (String × String)) (i1 i2 : List (List String × Row))
    (common : List (List String)) :
    (statsCount cfg mapping i1 i2 common).map (fun p => p.1) =
      (mapping.map (fun p => p.1)).eraseDups := by
  suffices h : ∀ (cs : List (List String)) (m : List (String × Nat)),
      ((cs.foldl (fun m k =>
        let r1 := (idxGet i1 k).getD []
        let r2 := (idxGet i2 k).getD []
        mapping.foldl (fun acc p =>
          if valueMatches cfg (rowGet r1 p.1) (rowGet r2 p.2) then
            bumpMatches acc p.1
          else acc) m) m).map (fun p => p.1)) = m.map (fun p => p.1) by
    unfold statsCount
    rw [h, List.map_map]
    have hcomp : ((fun p : String × Nat => p.1) ∘ fun c : String => (c, (0 : Nat))) =
        fun c : String => c := by
      funext c
      rfl
    rw [hcomp]
    simp
  intro cs
  induction cs with
  | nil => intro m; rfl
  | cons k cs ih =>
    intro m
    simp only [List.foldl_cons]
    rw [ih]
    exact innerFold_keys
      (fun p => valueMatches cfg (rowGet ((idxGet i1 k).getD []) p.1)
        (rowGet ((idxGet i2 k).getD []) p.2)) mapping m

/-- The counting fold computes, for each mapped column, the number of
common keys whose values match for that column. -/
theorem statsCount_fold_lookup (cfg : ComparisonConfig)
    (mapping : List (String × String)) (i1 i2 : List (List String × Row))
    (c c2 : String) (hnd : (mapping.map (fun p => p.1)).Nodup)
    (hmem : (c, c2) ∈ mapping) :
    ∀ (common : List (List String)) (m : List (String × Nat)) (n : Nat),
      assocLookup m c = Option.some n →
      assocLookup (common.foldl (fun m k =>
        let r1 := (idxGet i1 k).getD []
        let r2 := (idxGet i2 k).getD []
        mapping.foldl (fun acc p =>
          if valueMatches cfg (rowGet r1 p.1) (rowGet r2 p.2) then
            bumpMatches acc p.1
          else acc) m) m) c =
      Option.some (n + common.countP (fun k =>
        valueMatches cfg (rowGet ((idxGet i1 k).getD []) c)
          (rowGet ((idxGet i2 k).getD []) c2))) := by
  intro common
  induction common with
  | nil => intro m n hm; simpa using hm
  | cons k common ih =>
    intro m n hm
    simp only [List.foldl_cons]
    have hstep := innerFold_lookup_of_mem
      (fun p => valueMatches cfg (rowGet ((idxGet i1 k).getD []) p.1)
        (rowGet ((idxGet i2 k).getD []) p.2)) mapping m c c2 hnd hmem
    rw [hm] at hstep
    simp only [Option.map_some] at hstep
    by_cases hq : valueMatches cfg (rowGet ((idxGet i1 k).getD []) c)
        (rowGet ((idxGet i2 k).getD []) c2) = true
    · simp only [hq, if_true] at hstep
      rw [ih _ (n + 1) hstep, List.countP_cons]
      simp only [hq, if_true]
      congr 1
      omega
    · simp only [hq, if_false] at hstep
      rw [ih _ n hstep, List.countP_cons]
      simp [hq]

/-- C5 (amended): `columnStats` has one entry per column of the
correspondence — identifier-key columns and columns excluded from
`columnsToCompare` included — each equal to the count of common keys whose
values for that column match, divided by the number of common keys; when
there are no common keys the statistics are empty. -/
theorem column_stats_cover_correspondence (cfg : ComparisonConfig)
    (mapping : List (String × String)) (i1 i2 : List (List String × Row))
    (common : List (List String))
    (hnd : (mapping.map (fun p => p.1)).Nodup) :
    (common = [] → calcColumnStats cfg mapping i1 i2 common = []) ∧
    (common ≠ [] →
      ((calcColumnStats cfg mapping i1 i2 common).map (fun p => p.1) =
        mapping.map (fun p => p.1)) ∧
      ∀ c c2, (c, c2) ∈ mapping →
        assocLookup (calcColumnStats cfg mapping i1 i2 common) c =
          Option.some (((common.countP (fun k =>
            valueMatches cfg (rowGet ((idxGet i1 k).getD []) c)
              (rowGet ((idxGet i2 k).getD []) c2))) : ℚ) /
            (common.length : ℚ))) := by
  constructor
  · intro h
    subst h
    rfl
  · intro hne
    have hemp : common.isEmpty = false := by
      cases common with
      | nil => exact absurd rfl hne
      | cons k ks => rfl
    have hcalc : calcColumnStats cfg mapping i1 i2 common =
        (statsCount cfg mapping i1 i2 common).map
          (fun p => (p.1, (p.2 : ℚ) / (common.length : ℚ))) := by
      unfold calcColumnStats
      rw [if_neg (by simp [hemp])]
    constructor
    · rw [hcalc, List.map_map]
      have : ((fun p => p.1) ∘
          fun p : String × Nat => (p.1, (p.2 : ℚ) / (common.length : ℚ))) =
          (fun p : String × Nat => p.1) := by
        funext p
        rfl
      rw [this, statsCount_keys, eraseDups_of_nodup _ hnd]
    · intro c c2 hmem
      rw [hcalc,
        assocLookup_map_snd (fun n : Nat => (n : ℚ) / (common.length : ℚ))]
      have hc : c ∈ mapping.map (fun p => p.1) :=
        List.mem_map.mpr ⟨(c, c2), hmem, rfl⟩
      have hinit : assocLookup
          (((mapping.map (fun p => p.1)).eraseDups).map (fun c => (c, (0 : Nat))))
          c = Option.some 0 := by
        rw [eraseDups_of_nodup _ hnd]
        exact assocLookup_initZero _ c hc
      have := statsCount_fold_lookup cfg mapping i1 i2 c c2 hnd hmem common _ 0
        hinit
      unfold statsCount
      rw [this]
      simp

/-- Counterexample for C5: with `columns_to_compare = ["name"]` the
excluded column `value` still gets a statistics entry, and under the
default configuration the identifier-key column `customer_id` (present in
the correspondence) also gets one. -/
theorem column_stats_scoping_counterexample :
    (match engScoped.compare with
      | Except.ok r => r.column_stats.map (fun p => p.1)
      | Except.error _ => []) = ["name", "value"] ∧
    (match engMappedId.compare with
      | Except.ok r => r.column_stats.map (fun p => p.1)
      | Except.error _ => []) = ["customer_id", "name"] := ⟨rfl, rfl⟩

/-- Witness for C5's amended theorem: on a one-column one-key instance the
statistics cover exactly the mapped column. -/
theorem column_stats_cover_correspondence_witness :
    (calcColumnStats {} [("a", "a")] [(["1"], [("a", Val.txt "x")])]
      [(["1"], [("a", Val.txt "x")])] [["1"]]).map (fun p => p.1) =
      [("a", "a")].map (fun p => p.1) :=
  ((column_stats_cover_correspondence {} [("a", "a")]
    [(["1"], [("a", Val.txt "x")])] [(["1"], [("a", Val.txt "x")])] [["1"]]
    (by decide)).2 (by decide)).1

/-- Keys after a dict insertion: unchanged on replacement, extended on a
fresh key. -/
theorem dictInsert_keys {α β : Type} [BEq α] [LawfulBEq α]
    (m : List (α × β)) (k : α) (v : β) :
    (dictInsert m k v).map (fun p => p.1) =
      if m.any (fun p => p.1 == k) then m.map (fun p => p.1)
      else m.map (fun p => p.1) ++ [k] := by
  unfold dictInsert
  by_cases h : m.any (fun p => p.1 == k) = true
  · rw [if_pos h, if_pos h, List.map_map]
    apply List.map_congr_left
    intro p hp
    by_cases hpk : (p.1 == k) = true
    · simp only [Function.comp_apply]
      rw [if_pos hpk]
      exact (eq_of_beq hpk).symm
    · simp only [Function.comp_apply]
      rw [if_neg hpk]
  · rw [if_neg h, if_neg h]
    simp

/-- The index-building fold keeps composite keys duplicate-free. -/
theorem mkIndex_go_nodup (keyOf : Row → Except String (List String)) :
    ∀ (rows : List Row) (acc idx : List (List String × Row)),
      (idxKeys acc).Nodup →
      rows.foldlM (fun idx r =>
        (keyOf r).map (fun k => dictInsert idx k r)) acc = Except.ok idx →
      (idxKeys idx).Nodup
  | [], acc, idx, hnd, heq => by
    simp only [List.foldlM_nil] at heq
    cases heq
    exact hnd
  | r :: rows, acc, idx, hnd, heq => by
    simp only [List.foldlM_cons] at heq
    cases hk : keyOf r with
    | error err =>
      rw [hk] at heq
      exact Except.noConfusion heq
    | ok k =>
      rw [hk] at heq
      have heq' : rows.foldlM (fun idx r =>
          (keyOf r).map (fun k => dictInsert idx k r)) (dictInsert acc k r) =
          Except.ok idx := heq
      have hnd' : (idxKeys (dictInsert acc k r)).Nodup := by
        have hkeys := dictInsert_keys acc k r
        by_cases hany : acc.any (fun p => p.1 == k) = true
        · rw [if_pos hany] at hkeys
          unfold idxKeys
          rw [hkeys]
          exact hnd
        · rw [if_neg hany] at hkeys
          have hkn : k ∉ idxKeys acc := by
            intro hkm
            rcases List.mem_map.mp hkm with ⟨p, hp, hpk⟩
            exact hany (List.any_eq_true.mpr ⟨p, hp, by simp [hpk]⟩)
          unfold idxKeys
          rw [hkeys]
          refine List.Nodup.append hnd (List.nodup_singleton k) ?_
          intro a ha hka
          have hak : a = k := List.mem_singleton.mp hka
          subst hak
          exact hkn ha
      exact mkIndex_go_nodup keyOf rows (dictInsert acc k r) idx hnd' heq'

/-- The keys of a successfully built index are duplicate-free. -/
theorem mkIndex_keys_nodup (rows : List Row)
    (keyOf : Row → Except String (List String))
    (idx : List (List String × Row)) (h : mkIndex rows keyOf = Except.ok idx) :
    (idxKeys idx).Nodup :=
  mkIndex_go_nodup keyOf rows [] idx (by simp [idxKeys]) h

/-- The per-key payload that `compare` emits for a differing common key:
the key-value dict together with the full row from each side. -/
def diffPayload (e : ComparisonEngine) (i1 i2 : List (List String × Row))
    (k : List String) : Option DiffEntry :=
  match compareRows e.config e.column_mapping ((idxGet i1 k).getD [])
      ((idxGet i2 k).getD []) with
  | Except.ok (Option.some pr) =>
    Option.some { id := e.id_columns.zip k, source1_value := pr.1,
                  source2_value := pr.2 }
  | _ => Option.none

/-- A successful diff collection is the `filterMap` of the per-key
payload. -/
theorem collectDiffs_ok_eq (e : ComparisonEngine)
    (i1 i2 : List (List String × Row)) :
    ∀ (ks : List (List String)) (d : List DiffEntry),
      collectDiffs e i1 i2 ks = Except.ok d →
      d = ks.filterMap (diffPayload e i1 i2)
  | [], d, h => by
    cases h
    rfl
  | k :: ks, d, h => by
    rw [collectDiffs] at h
    cases hcr : compareRows e.config e.column_mapping ((idxGet i1 k).getD [])
        ((idxGet i2 k).getD []) with
    | error err =>
      rw [hcr] at h
      exact Except.noConfusion h
    | ok o =>
      rw [hcr] at h
      cases o with
      | none =>
        rw [List.filterMap_cons]
        simp only [diffPayload, hcr]
        exact collectDiffs_ok_eq e i1 i2 ks d h
      | some pr =>
        obtain ⟨r1, r2⟩ := pr
        cases hrec : collectDiffs e i1 i2 ks with
        | error err =>
          rw [hrec] at h
          exact Except.noConfusion h
        | ok rest =>
          rw [hrec] at h
          have h' : Except.ok
              ((⟨e.id_columns.zip k, r1, r2⟩ : DiffEntry) :: rest) =
              Except.ok d := h
          cases h'
          rw [List.filterMap_cons]
          simp only [diffPayload, hcr]
          rw [← collectDiffs_ok_eq e i1 i2 ks rest hrec]

/-- A successful `compare` is the diff collection over the common keys
followed by packaging the result record. -/
theorem compare_as_bind (e : ComparisonEngine)
    (i1 i2 : List (List String × Row))
    (h1 : mkIndex e.source1_data (rowKey1 e.id_columns) = Except.ok i1)
    (h2 : mkIndex e.source2_data (rowKey2 e.id_columns e.column_mapping) =
      Except.ok i2) :
    e.compare = (collectDiffs e i1 i2 (commonKeys i1 i2)).bind (fun diffs =>
      Except.ok
        { unique_to_source1 :=
            (uniqueKeys i1 i2).map (fun k => (idxGet i1 k).getD [])
          unique_to_source2 :=
            (uniqueKeys i2 i1).map (fun k => (idxGet i2 k).getD [])
          differences := diffs
          column_stats :=
            calcColumnStats e.config e.column_mapping i1 i2
              (commonKeys i1 i2) }) := by
  unfold ComparisonEngine.compare
  simp only [h1, h2]
  rfl

/-- C7 (amended): a successful `compare` emits exactly one `differing`
entry per common key whose rows differ, in common-key order (the common
keys are duplicate-free), and each entry carries the full key values
together with the complete indexed row from each side — all columns, raw
values — not only the differing columns. -/
theorem compare_differing_entries (e : ComparisonEngine)
    (i1 i2 : List (List String × Row)) (r : ComparisonResult)
    (h1 : mkIndex e.source1_data (rowKey1 e.id_columns) = Except.ok i1)
    (h2 : mkIndex e.source2_data (rowKey2 e.id_columns e.column_mapping) =
      Except.ok i2)
    (hr : e.compare = Except.ok r) :
    r.differences = (commonKeys i1 i2).filterMap (diffPayload e i1 i2) ∧
    (commonKeys i1 i2).Nodup := by
  constructor
  · rw [compare_as_bind e i1 i2 h1 h2] at hr
    cases hcd : collectDiffs e i1 i2 (commonKeys i1 i2) with
    | error err =>
      rw [hcd] at hr
      exact Except.noConfusion hr
    | ok d =>
      rw [hcd] at hr
      simp only [Except.bind] at hr
      cases hr
      exact collectDiffs_ok_eq e i1 i2 (commonKeys i1 i2) d hcd
  · exact (mkIndex_keys_nodup _ _ _ h1).filter _

/-- Counterexample for C7: on the basic engine, the single differing
entry (key id 2, only `value` differs) also carries the non-differing
columns `id` and `name` of both rows. -/
theorem differing_entry_not_only_differing_columns :
    (match engBasic.compare with
      | Except.ok r => r.differences
      | Except.error _ => []) =
      [{ id := [("id", "2")]
         source1_value :=
           [("id", Val.txt "2"), ("name", Val.txt "Bob"),
            ("value", Val.txt "200")]
         source2_value :=
           [("id", Val.txt "2"), ("name", Val.txt "Bob"),
            ("value", Val.txt "250")] }] ∧
    valuesDiffer engBasic.config (Option.some (Val.txt "Bob"))
      (Option.some (Val.txt "Bob")) = false := ⟨rfl, by decide⟩

/-- Witness for C7's amended theorem at the basic engine. -/
theorem compare_differing_entries_witness :
    compBasic.differences =
      (commonKeys idxBasic1 idxBasic2).filterMap
        (diffPayload engBasic idxBasic1 idxBasic2) :=
  (compare_differing_entries engBasic idxBasic1 idxBasic2 compBasic
    rfl rfl rfl).1

/-- A raising row access succeeds exactly when the soft access finds the
column. -/
theorem rowGetE_ok (r : Row) (c : String)
    (h : (rowGet r c).isSome = true) : ∃ v, rowGetE r c = Except.ok v := by
  unfold rowGet at h
  unfold rowGetE
  cases hf : r.find? (fun p => p.1 == c) with
  | none =>
    rw [hf] at h
    simp at h
  | some p => exact ⟨p.2, rfl⟩

/-- `mapM` over `Except` succeeds when every element does. -/
theorem mapM_except_ok {α β : Type} (f : α → Except String β) :
    ∀ (l : List α), (∀ a ∈ l, ∃ b, f a = Except.ok b) →
      ∃ bs, l.mapM f = Except.ok bs
  | [], _ => ⟨[], rfl⟩
  | a :: l, h => by
    obtain ⟨b, hb⟩ := h a (List.mem_cons_self a l)
    obtain ⟨bs, hbs⟩ :=
      mapM_except_ok f l (fun x hx => h x (List.mem_cons_of_mem a hx))
    refine ⟨b :: bs, ?_⟩
    rw [List.mapM_cons, hb, hbs]
    rfl

/-- The index-building fold succeeds when every row's composite key
does. -/
theorem mkIndex_fold_ok (keyOf : Row → Except String (List String)) :
    ∀ (rows : List Row) (acc : List (List String × Row)),
      (∀ r ∈ rows, ∃ k, keyOf r = Except.ok k) →
      ∃ idx, rows.foldlM (fun idx r =>
        (keyOf r).map (fun k => dictInsert idx k r)) acc = Except.ok idx
  | [], acc, _ => ⟨acc, rfl⟩
  | r :: rows, acc, h => by
    obtain ⟨k, hk⟩ := h r (List.mem_cons_self r rows)
    obtain ⟨idx, hidx⟩ := mkIndex_fold_ok keyOf rows (dictInsert acc k r)
      (fun x hx => h x (List.mem_cons_of_mem r hx))
    refine ⟨idx, ?_⟩
    simp only [List.foldlM_cons]
    rw [hk]
    exact hidx

/-- The column loop of `_compare_rows` succeeds when every compared
column is present in the mapping. -/
theorem compareRowsLoop_ok (cfg : ComparisonConfig)
    (mapping : List (String × String)) (r1 r2 : Row) :
    ∀ (cols : List String),
      (∀ c ∈ cols, (mapLookup mapping c).isSome = true) →
      ∃ b, compareRowsLoop cfg mapping r1 r2 cols = Except.ok b
  | [], _ => ⟨false, rfl⟩
  | c :: cs, h => by
    have hc := h c (List.mem_cons_self c cs)
    cases hml : mapLookup mapping c with
    | none =>
      rw [hml] at hc
      simp at hc
    | some c2 =>
      obtain ⟨b, hb⟩ := compareRowsLoop_ok cfg mapping r1 r2 cs
        (fun x hx => h x (List.mem_cons_of_mem c hx))
      refine ⟨valuesDiffer cfg (rowGet r1 c) (rowGet r2 c2) || b, ?_⟩
      rw [compareRowsLoop, hml, hb]

/-- The diff collection succeeds when every compared column is present in
the mapping. -/
theorem collectDiffs_ok (e : ComparisonEngine)
    (i1 i2 : List (List String × Row))
    (hcc : ∀ c ∈ colsToCompare e.config e.column_mapping,
      (mapLookup e.column_mapping c).isSome = true) :
    ∀ (ks : List (List String)),
      ∃ d, collectDiffs e i1 i2 ks = Except.ok d
  | [] => ⟨[], rfl⟩
  | k :: ks => by
    obtain ⟨b, hb⟩ := compareRowsLoop_ok e.config e.column_mapping
      ((idxGet i1 k).getD []) ((idxGet i2 k).getD [])
      (colsToCompare e.config e.column_mapping) hcc
    have ho : compareRows e.config e.column_mapping ((idxGet i1 k).getD [])
        ((idxGet i2 k).getD []) = Except.ok (if b then Option.some
          (((idxGet i1 k).getD []), ((idxGet i2 k).getD []))
          else Option.none) := by
      unfold compareRows
      rw [hb]
      cases b <;> rfl
    obtain ⟨d, hd⟩ := collectDiffs_ok e i1 i2 hcc ks
    cases b with
    | false =>
      refine ⟨d, ?_⟩
      rw [collectDiffs]
      simp only [if_false] at ho
      rw [ho]
      exact hd
    | true =>
      simp only [if_true] at ho
      refine ⟨⟨e.id_columns.zip k, (idxGet i1 k).getD [],
        (idxGet i2 k).getD []⟩ :: d, ?_⟩
      rw [collectDiffs, ho, hd]
      rfl

/-- C8 (amended): under a well-formed configuration — every identifier
column resolvable in every row of each batch (for source 2 after the
mapping fallback) and every compared column present in the
correspondence — `compare` raises no error. -/
theorem compare_wellformed_no_error (e : ComparisonEngine)
    (hk1 : ∀ row ∈ e.source1_data, ∀ c ∈ e.id_columns,
      (rowGet row c).isSome = true)
    (hk2 : ∀ row ∈ e.source2_data, ∀ c ∈ e.id_columns,
      (rowGet row ((mapLookup e.column_mapping c).getD c)).isSome = true)
    (hcc : ∀ c ∈ colsToCompare e.config e.column_mapping,
      (mapLookup e.column_mapping c).isSome = true) :
    (e.compare).isOk = true := by
  obtain ⟨i1, h1⟩ := mkIndex_fold_ok (rowKey1 e.id_columns) e.source1_data []
    (fun r hr => mapM_except_ok _ e.id_columns (fun c hc => by
      obtain ⟨v, hv⟩ := rowGetE_ok r c (hk1 r hr c hc)
      exact ⟨keyStr v, by rw [hv]; rfl⟩))
  obtain ⟨i2, h2⟩ := mkIndex_fold_ok (rowKey2 e.id_columns e.column_mapping)
    e.source2_data []
    (fun r hr => mapM_except_ok _ e.id_columns (fun c hc => by
      obtain ⟨v, hv⟩ := rowGetE_ok r _ (hk2 r hr c hc)
      exact ⟨keyStr v, by rw [hv]; rfl⟩))
  rw [compare_as_bind e i1 i2 h1 h2]
  obtain ⟨d, hd⟩ := collectDiffs_ok e i1 i2 hcc (commonKeys i1 i2)
  rw [hd]
  rfl

/-- Counterexample for C8: with `columns_to_compare = ["ghost"]` while
`ghost` is absent from the correspondence, `compare` succeeds whenever the
batches share no composite key (no error, and in particular none before
partitioning); with one common key the same misconfiguration raises a
key-lookup error (`KeyError`, not a `ConfigurationError`) during row
comparison, after partitioning. -/
theorem compare_misconfig_no_failure_counterexample :
    (engGhost.compare).isOk = true ∧
    mapLookup engGhost.column_mapping "ghost" = Option.none ∧
    colsToCompare engGhost.config engGhost.column_mapping = ["ghost"] ∧
    engGhostCommon.compare = Except.error "ghost" :=
  ⟨rfl, rfl, rfl, rfl⟩

/-- Witness for C8's amended theorem: the well-formed tiny engine
compares without error. -/
theorem compare_wellformed_no_error_witness :
    (engTiny.compare).isOk = true :=
  compare_wellformed_no_error engTiny (by decide) (by decide) (by decide)

/-- `find?` returns the first element satisfying the test: everything
before it fails the test. -/
theorem find?_first {α : Type} (p : α → Bool) :
    ∀ (l : List α) (a : α), l.find? p = Option.some a →
      ∃ pre post, l = pre ++ a :: post ∧ ∀ x ∈ pre, p x = false
  | [], a, h => by cases h
  | x :: l, a, h => by
    simp only [List.find?] at h
    cases hx : p x with
    | true =>
      rw [hx] at h
      cases h
      exact ⟨[], l, rfl, by simp⟩
    | false =>
      rw [hx] at h
      obtain ⟨pre, post, hl, hpre⟩ := find?_first p l a h
      refine ⟨x :: pre, post, by rw [hl]; rfl, ?_⟩
      intro y hy
      rcases List.mem_cons.mp hy with rfl | hy'
      · exact hx
      · exact hpre y hy'

/-- Inserting a fresh key appends it. -/
theorem dictInsert_of_fresh {α β : Type} [BEq α] (m : List (α × β)) (k : α)
    (v : β) (h : m.any (fun p => p.1 == k) = false) :
    dictInsert m k v = m ++ [(k, v)] := by
  unfold dictInsert
  rw [if_neg (by simp [h])]

/-- The exact-matching fold over duplicate-free source-1 columns collects
the first case-insensitive match of each column, appended to the
accumulator. -/
theorem exactMappings_go (s2 : List String) :
    ∀ (s1 : List String) (acc : List (String × String)),
      (∀ c ∈ s1, ∀ v, (c, v) ∉ acc) → s1.Nodup →
      s1.foldl (fun maps c =>
        match firstLowerMatch c s2 with
        | Option.some c2 => dictInsert maps c c2
        | Option.none => maps) acc =
      acc ++ s1.filterMap (fun c =>
        (firstLowerMatch c s2).map (fun c2 => (c, c2)))
  | [], acc, _, _ => by simp
  | c :: s1, acc, hacc, hnd => by
    cases hm : firstLowerMatch c s2 with
    | none =>
      simp only [List.foldl_cons, List.filterMap_cons, hm, Option.map_none']
      rw [exactMappings_go s2 s1 acc
        (fun x hx v => hacc x (List.mem_cons_of_mem c hx) v)
        (List.nodup_cons.mp hnd).2]
    | some c2 =>
      simp only [List.foldl_cons, List.filterMap_cons, hm, Option.map_some']
      have hfresh : acc.any (fun p => p.1 == c) = false := by
        by_contra hcon
        rcases List.any_eq_true.mp (Bool.of_not_eq_false hcon) with ⟨p, hp, hpc⟩
        have : p.1 = c := eq_of_beq hpc
        exact hacc c (List.mem_cons_self c s1) p.2 (by
          have hpp : p = (c, p.2) := by
            rw [← this]
          rw [← hpp]
          exact hp)
      rw [dictInsert_of_fresh acc c c2 hfresh]
      rw [exactMappings_go s2 s1 (acc ++ [(c, c2)])
        (fun x hx v hmem => by
          rcases List.mem_append.mp hmem with hina | hinc
          · exact hacc x (List.mem_cons_of_mem c hx) v hina
          · have : (x, v) = (c, c2) := List.mem_singleton.mp hinc
            have hxc : x = c := congrArg Prod.fst this
            exact (List.nodup_cons.mp hnd).1 (hxc ▸ hx))
        (List.nodup_cons.mp hnd).2]
      simp

/-- C6 (amended): exact matching is case-insensitive — each source-A
column maps to the first source-B column whose lowercased name equals its
own — but matched source-B columns are not removed from the exact phase's
own candidate pool, so two source-A columns with equal lowercased names
map to the same source-B column (only the similarity phase excludes the
exactly-matched B columns from its pool). -/
theorem exact_matching_first_lower_match (s1 s2 : List String)
    (hnd : s1.Nodup) :
    exactMappings s1 s2 = s1.filterMap (fun c =>
      (firstLowerMatch c s2).map (fun c2 => (c, c2))) ∧
    ∀ c c2, (c, c2) ∈ exactMappings s1 s2 →
      c2 ∈ s2 ∧ pyLower c2 = pyLower c ∧
      ∃ pre post, s2 = pre ++ c2 :: post ∧
        ∀ x ∈ pre, pyLower x ≠ pyLower c := by
  have heq : exactMappings s1 s2 = s1.filterMap (fun c =>
      (firstLowerMatch c s2).map (fun c2 => (c, c2))) := by
    unfold exactMappings
    rw [exactMappings_go s2 s1 [] (by simp) hnd]
    simp
  refine ⟨heq, ?_⟩
  intro c c2 hmem
  rw [heq] at hmem
  rcases List.mem_filterMap.mp hmem with ⟨c', hc', hf⟩
  cases hm : firstLowerMatch c' s2 with
  | none =>
    rw [hm] at hf
    cases hf
  | some c2' =>
    rw [hm] at hf
    cases hf
    have hm' : s2.find? (fun x => pyLower x == pyLower c) = Option.some c2 := hm
    have hc2 : c2 ∈ s2 := List.mem_of_find?_eq_some hm'
    have hbeq := List.find?_some hm'
    obtain ⟨pre, post, hsplit, hpre⟩ := find?_first _ s2 c2 hm'
    refine ⟨hc2, eq_of_beq (by simpa using hbeq), pre, post, hsplit, ?_⟩
    intro x hx hlow
    have := hpre x hx
    rw [hlow] at this
    simp at this

/-- Counterexample for C6: the source-A columns `ID` and `Id` (distinct
names, equal lowercased) both map to the single source-B column `id` —
the matched B column is not removed from the exact-matching pool. -/
theorem exact_matching_shared_target_counterexample :
    auto_map_columns (fun _ _ => 0) ⟨["ID", "Id"], ["id"]⟩ =
      [("ID", "id"), ("Id", "id")] ∧ ("ID" : String) ≠ "Id" :=
  ⟨rfl, by decide⟩

/-- Witness for C6's amended theorem: the identity exact matching of
`test_exact_column_matching`. -/
theorem exact_matching_first_lower_match_witness :
    exactMappings ["id", "name", "price"] ["id", "name", "price"] =
      (["id", "name", "price"] : List String).filterMap (fun c =>
        (firstLowerMatch c ["id", "name", "price"]).map (fun c2 => (c, c2))) :=
  (exact_matching_first_lower_match ["id", "name", "price"]
    ["id", "name", "price"] (by decide)).1

/-- Extending the processed prefix with a candidate that does not change
the accumulator (already used, or failing the score test) preserves the
invariant. -/
theorem bcInv_extend_skip (ratio : String → String → ℚ) (col1 : String)
    (used processed : List String) (acc : ℚ × Option String) (c2 : String)
    (hskip : c2 ∈ used ∨
      ¬(ratio (pyLower col1) (pyLower c2) > acc.1 ∧
        ratio (pyLower col1) (pyLower c2) > 6 / 10))
    (hinv : bestCandidateInv ratio col1 used processed acc) :
    bestCandidateInv ratio col1 used (processed ++ [c2]) acc := by
  obtain ⟨hnone, hsome⟩ := hinv
  constructor
  · intro h2
    obtain ⟨hz, hall⟩ := hnone h2
    refine ⟨hz, ?_⟩
    intro x hx hxu
    rcases List.mem_append.mp hx with hx' | hx'
    · exact hall x hx' hxu
    · have hxc : x = c2 := List.mem_singleton.mp hx'
      subst hxc
      rcases hskip with hu | hcond
      · exact absurd hu hxu
      · rcases not_and_or.mp hcond with hle | hle
        · have := le_of_not_lt hle
          rw [hz] at this
          calc ratio (pyLower col1) (pyLower x) ≤ 0 := this
            _ ≤ 6 / 10 := by norm_num
        · exact le_of_not_lt hle
  · intro c h2
    obtain ⟨hcp, hcu, hs, hgt, hall, pre, post, hsplit, hpre⟩ := hsome c h2
    refine ⟨List.mem_append_left _ hcp, hcu, hs, hgt, ?_, pre, post ++ [c2],
      by rw [hsplit]; simp, hpre⟩
    intro x hx hxu
    rcases List.mem_append.mp hx with hx' | hx'
    · exact hall x hx' hxu
    · have hxc : x = c2 := List.mem_singleton.mp hx'
      subst hxc
      rcases hskip with hu | hcond
      · exact absurd hu hxu
      · rcases not_and_or.mp hcond with hle | hle
        · exact le_of_not_lt hle
        · exact le_trans (le_of_not_lt hle) (le_of_lt hgt)

/-- Extending the processed prefix with an eligible candidate that beats
the running best re-establishes the invariant at the new pick. -/
theorem bcInv_extend_pick (ratio : String → String → ℚ) (col1 : String)
    (used processed : List String) (acc : ℚ × Option String) (c2 : String)
    (hu : c2 ∉ used)
    (hcond : ratio (pyLower col1) (pyLower c2) > acc.1 ∧
      ratio (pyLower col1) (pyLower c2) > 6 / 10)
    (hinv : bestCandidateInv ratio col1 used processed acc) :
    bestCandidateInv ratio col1 used (processed ++ [c2])
      (ratio (pyLower col1) (pyLower c2), Option.some c2) := by
  obtain ⟨hnone, hsome⟩ := hinv
  constructor
  · intro h2
    cases h2
  · intro c h2
    cases h2
    have hboundlt : ∀ x ∈ processed, x ∉ used →
        ratio (pyLower col1) (pyLower x) < ratio (pyLower col1) (pyLower c2) := by
      intro x hx hxu
      cases hacc : acc.2 with
      | none =>
        have := (hnone hacc).2 x hx hxu
        exact lt_of_le_of_lt this hcond.2
      | some c0 =>
        have hb := (hsome c0 hacc).2.2.2.2.1 x hx hxu
        exact lt_of_le_of_lt hb hcond.1
    refine ⟨List.mem_append_right _ (List.mem_singleton.mpr rfl), hu, rfl,
      hcond.2, ?_, processed, [], rfl, ?_⟩
    · intro x hx hxu
      rcases List.mem_append.mp hx with hx' | hx'
      · exact le_of_lt (hboundlt x hx' hxu)
      · have hxc : x = c2 := List.mem_singleton.mp hx'
        subst hxc
        exact le_refl _
    · intro x hx hxu
      exact hboundlt x hx hxu

/-- The best-candidate fold preserves the invariant across any candidate
suffix. -/
theorem bestCandidate_go (ratio : String → String → ℚ) (col1 : String)
    (used : List String) :
    ∀ (cands processed : List String) (acc : ℚ × Option String),
      bestCandidateInv ratio col1 used processed acc →
      bestCandidateInv ratio col1 used (processed ++ cands)
        (cands.foldl (fun acc c2 =>
          if used.contains c2 then acc
          else if ratio (pyLower col1) (pyLower c2) > acc.1 ∧
              ratio (pyLower col1) (pyLower c2) > 6 / 10 then
            (ratio (pyLower col1) (pyLower c2), Option.some c2)
          else acc) acc)
  | [], processed, acc, hinv => by simpa using hinv
  | c2 :: cands, processed, acc, hinv => by
    simp only [List.foldl_cons]
    have hstep : bestCandidateInv ratio col1 used (processed ++ [c2])
        (if used.contains c2 then acc
         else if ratio (pyLower col1) (pyLower c2) > acc.1 ∧
             ratio (pyLower col1) (pyLower c2) > 6 / 10 then
           (ratio (pyLower col1) (pyLower c2), Option.some c2)
         else acc) := by
      by_cases hu : used.contains c2 = true
      · rw [if_pos hu]
        exact bcInv_extend_skip ratio col1 used processed acc c2
          (Or.inl (by simpa using hu)) hinv
      · rw [if_neg hu]
        by_cases hcond : ratio (pyLower col1) (pyLower c2) > acc.1 ∧
            ratio (pyLower col1) (pyLower c2) > 6 / 10
        · rw [if_pos hcond]
          exact bcInv_extend_pick ratio col1 used processed acc c2
            (by simpa using hu) hcond hinv
        · rw [if_neg hcond]
          exact bcInv_extend_skip ratio col1 used processed acc c2
            (Or.inr hcond) hinv
    have hrec := bestCandidate_go ratio col1 used cands (processed ++ [c2])
      _ hstep
    simpa [List.append_assoc] using hrec

/-- The invariant holds at the fold's start. -/
theorem bcInv_start (ratio : String → String → ℚ) (col1 : String)
    (used : List String) :
    bestCandidateInv ratio col1 used [] ((0 : ℚ), Option.none) := by
  constructor
  · intro _
    exact ⟨rfl, by simp⟩
  · intro c hc
    cases hc

/-- When no candidate is accepted, every unused candidate scored at most
0.6. -/
theorem bestCandidate_none_spec (ratio : String → String → ℚ)
    (col1 : String) (cands used : List String)
    (h : bestCandidate ratio col1 cands used = Option.none) :
    ∀ x ∈ cands, x ∉ used → ratio (pyLower col1) (pyLower x) ≤ 6 / 10 := by
  have hinv := bestCandidate_go ratio col1 used cands []
    ((0 : ℚ), Option.none) (bcInv_start ratio col1 used)
  have hres := hinv.1 h
  simpa using hres.2

/-- The accepted candidate is an unused candidate scoring above 0.6,
maximal among the unused candidates, and first among those attaining the
maximum. -/
theorem bestCandidate_some_spec (ratio : String → String → ℚ)
    (col1 : String) (cands used : List String) (c2 : String)
    (h : bestCandidate ratio col1 cands used = Option.some c2) :
    c2 ∈ cands ∧ c2 ∉ used ∧
    6 / 10 < ratio (pyLower col1) (pyLower c2) ∧
    (∀ x ∈ cands, x ∉ used →
      ratio (pyLower col1) (pyLower x) ≤ ratio (pyLower col1) (pyLower c2)) ∧
    ∃ pre post, cands = pre ++ c2 :: post ∧
      ∀ x ∈ pre, x ∉ used →
        ratio (pyLower col1) (pyLower x) < ratio (pyLower col1) (pyLower c2) := by
  have hinv := bestCandidate_go ratio col1 used cands []
    ((0 : ℚ), Option.none) (bcInv_start ratio col1 used)
  obtain ⟨hcp, hcu, hs, hgt, hall, pre, post, hsplit, hpre⟩ := hinv.2 c2 h
  rw [hs] at hgt hall hpre
  refine ⟨by simpa using hcp, hcu, hgt, ?_, pre, post, by simpa using hsplit, hpre⟩
  intro x hx hxu
  exact hall x (by simpa using hx) hxu

/-- Every source-A key the similarity phase emits comes from its input
column list. -/
theorem similarityMappings_keys_subset (ratio : String → String → ℚ)
    (cands : List String) :
    ∀ (cols used : List String) (c : String),
      c ∈ (similarityMappings ratio cands used cols).map (fun p => p.1) →
      c ∈ cols
  | [], _, c, h => by simp [similarityMappings] at h
  | c1 :: cols, used, c, h => by
    cases hb : bestCandidate ratio c1 cands used with
    | none =>
      simp only [similarityMappings, hb] at h
      exact List.mem_cons_of_mem c1
        (similarityMappings_keys_subset ratio cands cols used c h)
    | some c2 =>
      simp only [similarityMappings, hb, List.map_cons] at h
      rcases List.mem_cons.mp h with rfl | h'
      · exact List.mem_cons_self c cols
      · exact List.mem_cons_of_mem c1
          (similarityMappings_keys_subset ratio cands cols (used ++ [c2]) c h')

/-- The source-B columns accepted by the similarity phase avoid the used
pool and are pairwise distinct: each accepted column is removed from the
pool for the remaining source-A columns. -/
theorem similarityMappings_picks (ratio : String → String → ℚ)
    (cands : List String) :
    ∀ (cols used : List String),
      (∀ c2 ∈ (similarityMappings ratio cands used cols).map (fun p => p.2),
        c2 ∉ used) ∧
      ((similarityMappings ratio cands used cols).map (fun p => p.2)).Nodup
  | [], used => by
    constructor
    · intro c2 h
      simp [similarityMappings] at h
    · simp [similarityMappings]
  | c1 :: cols, used => by
    cases hb : bestCandidate ratio c1 cands used with
    | none =>
      simp only [similarityMappings, hb]
      exact similarityMappings_picks ratio cands cols used
    | some c2 =>
      simp only [similarityMappings, hb, List.map_cons]
      have hc2 := (bestCandidate_some_spec ratio c1 cands used c2 hb).2.1
      obtain ⟨hrest_used, hrest_nodup⟩ :=
        similarityMappings_picks ratio cands cols (used ++ [c2])
      constructor
      · intro x hx
        rcases List.mem_cons.mp hx with rfl | hx'
        · exact hc2
        · intro hxu
          exact hrest_used x hx' (List.mem_append_left _ hxu)
      · rw [List.nodup_cons]
        exact ⟨fun hc2mem => hrest_used c2 hc2mem
          (List.mem_append_right _ (List.mem_singleton.mpr rfl)),
          hrest_nodup⟩

/-- C4: for every still-unmapped source-A column, the similarity phase of
`autoMap` scores it (case-insensitively, on lowercased names) against
every unused source-B column, accepts the unused candidate with the
highest score only when it strictly exceeds 0.6 (first-encountered
source-B column wins ties), removes each accepted source-B column from the
candidate pool of the remaining columns, and leaves a column with no
acceptable match absent from the returned correspondence.  The similarity
function is a parameter standing for `difflib`'s ratio, whose scores lie
in [0, 1]. -/
theorem auto_map_similarity_rule (ratio : String → String → ℚ)
    (hb : ∀ a b, 0 ≤ ratio a b ∧ ratio a b ≤ 1) (m : ColumnMapper)
    (col1 : String) (cands used rest cols : List String) :
    (auto_map_columns ratio m =
      exactMappings m.source1_columns m.source2_columns ++
        similarityMappings ratio m.source2_columns
          (m.source2_columns.filter (fun c =>
            ((exactMappings m.source1_columns m.source2_columns).map
              (fun p => p.2)).contains c))
          (m.source1_columns.filter (fun c =>
            !(((exactMappings m.source1_columns m.source2_columns).map
              (fun p => p.1)).contains c)))) ∧
    (∀ c2, bestCandidate ratio col1 cands used = Option.some c2 →
      c2 ∈ cands ∧ c2 ∉ used ∧
      6 / 10 < ratio (pyLower col1) (pyLower c2) ∧
      (∀ x ∈ cands, x ∉ used →
        ratio (pyLower col1) (pyLower x) ≤
          ratio (pyLower col1) (pyLower c2)) ∧
      ∃ pre post, cands = pre ++ c2 :: post ∧
        ∀ x ∈ pre, x ∉ used →
          ratio (pyLower col1) (pyLower x) <
            ratio (pyLower col1) (pyLower c2)) ∧
    (bestCandidate ratio col1 cands used = Option.none →
      ∀ x ∈ cands, x ∉ used →
        ratio (pyLower col1) (pyLower x) ≤ 6 / 10) ∧
    ((∀ c2 ∈ (similarityMappings ratio cands used cols).map (fun p => p.2),
        c2 ∉ used) ∧
      ((similarityMappings ratio cands used cols).map (fun p => p.2)).Nodup) ∧
    (∀ c ∈ (similarityMappings ratio cands used cols).map (fun p => p.1),
      c ∈ cols) ∧
    (bestCandidate ratio col1 cands used = Option.none → col1 ∉ rest →
      col1 ∉ (similarityMappings ratio cands used (col1 :: rest)).map
        (fun p => p.1)) := by
  refine ⟨rfl, ?_, ?_, ?_, ?_, ?_⟩
  · intro c2 h
    exact bestCandidate_some_spec ratio col1 cands used c2 h
  · intro h
    exact bestCandidate_none_spec ratio col1 cands used h
  · exact similarityMappings_picks ratio cands cols used
  · intro c hc
    exact similarityMappings_keys_subset ratio cands cols used c hc
  · intro hbn hrest hmem
    simp only [similarityMappings, hbn] at hmem
    exact hrest (similarityMappings_keys_subset ratio cands rest used col1 hmem)

/-- Witness for C4 at a concrete zero-scoring similarity function: no
candidate reaches the 0.6 threshold, and the accepted-column list over one
unmapped column is duplicate-free. -/
theorem auto_map_similarity_rule_witness :
    ((similarityMappings (fun _ _ => (0 : ℚ)) ["b"] [] ["a"]).map
      (fun p => p.2)).Nodup :=
  ((auto_map_similarity_rule (fun _ _ => (0 : ℚ))
    (fun _ _ => ⟨le_refl 0, by norm_num⟩) ⟨[], []⟩ "a" ["b"] [] []
    ["a"]).2.2.2.1).2

end DataCompare
